import Mathlib

/-!
# lazyccg — verification of the session monitor core

Shallow embedding of the session detection & status-inference engine and the
interactive selection/filter state machine of `cmd/lazyccg/main.go`, together
with the older heuristic-only status classifier kept in the repository's
history.  String primitives model the Go `strings` helpers used by the code
(ASCII case folding, as all compared markers are ASCII).
-/

namespace Lazyccg

/-! ## String primitives (models of the Go `strings` helpers) -/

/-- Model of Go `unicode.ToLower` restricted to ASCII (all markers compared by
the program are ASCII). -/
def charLower (c : Char) : Char :=
  if 65 ≤ c.toNat ∧ c.toNat ≤ 90 then Char.ofNat (c.toNat + 32) else c

/-- Model of Go `strings.ToLower`. -/
def strLower (s : String) : String :=
  String.mk (s.data.map charLower)

/-- Model of Go `strings.HasPrefix s p`. -/
def strStartsWith (s p : String) : Bool :=
  p.data.isPrefixOf s.data

/-- Model of Go `strings.HasSuffix s p`. -/
def strEndsWith (s p : String) : Bool :=
  p.data.isSuffixOf s.data

/-- Whether `pat` occurs as a contiguous run inside `l`. -/
def containsRun (pat : List Char) : List Char → Bool
  | [] => pat.isEmpty
  | c :: rest => pat.isPrefixOf (c :: rest) || containsRun pat rest

/-- Model of Go `strings.Contains s pat`. -/
def strContains (s pat : String) : Bool :=
  containsRun pat.data s.data

/-- Model of Go `strings.Join l sep`. -/
def strJoin (sep : String) (l : List String) : String :=
  String.intercalate sep l

/-- The ASCII whitespace set cut by Go `strings.TrimSpace`. -/
def isSpaceChar (c : Char) : Bool :=
  c = ' ' || c = '\t' || c = '\n' || c.toNat = 11 || c.toNat = 12 || c = '\r'

/-- Model of Go `strings.TrimSpace` (ASCII whitespace). -/
def trimSpace (s : String) : String :=
  String.mk (((s.data.dropWhile isSpaceChar).reverse.dropWhile isSpaceChar).reverse)

/-- The substring of `s` after the last `/`, i.e. the path basename as computed
by `extractAI` via `strings.LastIndex(arg, "/")`; the whole string when no `/`
occurs. -/
def baseName (s : String) : String :=
  String.mk ((s.data.reverse.takeWhile (fun c => c ≠ '/')).reverse)

/-- Slice `lines[len-n:]` when `len > n`, otherwise `lines` — the "last few lines"
slicing pattern used throughout `main.go`. -/
def lastN (n : Nat) (l : List String) : List String :=
  if l.length > n then l.drop (l.length - n) else l

/-! ## Status classifiers -/

/-- Function `inferStatus` from `cmd/lazyccg/main.go` (fingerprint-aware variant):
content heuristic used when the output fingerprint has not changed. -/
def inferStatus (lines : List String) : String :=
  if lines.length = 0 then "IDLE"
  else
    let lastLine := trimSpace (lines.getLastD "")
    let lastLineLower := strLower lastLine
    let recentLines := lastN 10 lines
    let recentText := strLower (strJoin " " recentLines)
    if strContains recentText "waiting" || strContains recentText "approval" ||
        strContains recentText "confirm" || strContains recentText "press enter" then
      "WAITING"
    else if lastLine = ">" || lastLine = ">>" ||
        strStartsWith lastLine "> " || strStartsWith lastLine "$ " ||
        strStartsWith lastLine "% " || strEndsWith lastLine " >" ||
        strContains lastLineLower "context left" ||
        strContains lastLineLower "? for shortcuts" ||
        strContains recentText "accept edits" ||
        strContains recentText "crunched for" ||
        strContains recentText "brewed for" ||
        strContains recentText "worked for" then
      "IDLE"
    else
      "IDLE"

/-- The `outputChanged || hasActiveIndicator` condition of `loadSessions`
(`cmd/lazyccg/main.go` lines 679–691): the fingerprint of the last 5 lines
differs from the previous poll's, or the recent text carries the explicit
busy marker. `prev` is `prevHashes[win.ID]` (`none` when the id is absent). -/
def runningTrigger (lines : List String) (prev : Option String) : Bool :=
  let hashLines := lastN 5 lines
  let currentHash := strJoin "\n" hashLines
  let outputChanged : Bool :=
    match prev with
    | some p => !(currentHash = p : Bool)
    | none => false
  let recentText := strLower (strJoin " " hashLines)
  outputChanged || strContains recentText "ctrl+c to interrupt"

/-- The status computation of `loadSessions` in `cmd/lazyccg/main.go`
(lines 671–694): fingerprint change detection and the explicit busy marker
force RUNNING, otherwise the `inferStatus` fallback runs. -/
def classifyStatus (lines : List String) (prev : Option String) : String :=
  if runningTrigger lines prev then "RUNNING" else inferStatus lines

/-- Prompt-waiting condition of the heuristic-only `inferStatus` variant
(`src/unnamed/part_001`, lines 894–904): the last trimmed line looks like a
shell/tool prompt or carries a tool-specific idle marker. -/
def promptIdleHeuristic (lines : List String) : Bool :=
  let lastLine := trimSpace (lines.getLastD "")
  let lastLineLower := strLower lastLine
  strStartsWith lastLine "> " || strStartsWith lastLine "$ " ||
    strStartsWith lastLine "% " || strEndsWith lastLine "> " ||
    strEndsWith lastLine "$ " || strEndsWith lastLine "% " ||
    strContains lastLineLower "context left" ||
    strContains lastLineLower "? for shortcuts"

/-- WAITING condition of the heuristic-only variant: user-confirmation markers
in the last 20 lines. -/
def waitingMarker (lines : List String) : Bool :=
  let chunk := strLower (strJoin " " (lastN 20 lines))
  strContains chunk "waiting" || strContains chunk "approval" ||
    strContains chunk "confirm" || strContains chunk "press enter"

/-- DONE condition of the heuristic-only variant: completion markers in the
last 20 lines. -/
def doneMarker (lines : List String) : Bool :=
  let chunk := strLower (strJoin " " (lastN 20 lines))
  strContains chunk "done" || strContains chunk "finished" ||
    strContains chunk "complete"

/-- Function `inferStatus` from `src/unnamed/part_001` (heuristic-only variant, lines
885–924): prompt check on the last line, then WAITING / DONE markers over the
last 20 lines, defaulting to RUNNING. -/
def inferStatusHeuristic (lines : List String) : String :=
  if lines.length = 0 then "IDLE"
  else if promptIdleHeuristic lines then "IDLE"
  else if waitingMarker lines then "WAITING"
  else if doneMarker lines then "DONE"
  else "RUNNING"

/-! ## AI identifier (`extractAI` and its data model) -/

/-- A foreground process of a kitty window (`foregroundProcess` in `main.go`). -/
structure ForegroundProcess where
  pid : Int
  cwd : String
  cmdline : List String
deriving Repr, DecidableEq

/-- A kitty window (`kittyWindow` in `main.go`). -/
structure KittyWindow where
  id : Int
  title : String
  cwd : String
  foregroundProcesses : List ForegroundProcess
deriving Repr, DecidableEq

/-- Per-token, per-prefix match condition tested by `extractAI`
(`main.go` lines 745–758): the lower-cased basename equals the prefix, or the
lower-cased full token contains `/<prefix>/` or contains `/<prefix>`. -/
def tokenMatch (arg p : String) : Bool :=
  strLower (baseName arg) = p ||
    strContains (strLower arg) ("/" ++ p ++ "/") ||
    strContains (strLower arg) ("/" ++ p)

/-- First configured prefix (in listed order) matching a token. -/
def argMatch (arg : String) : List String → Option String
  | [] => none
  | p :: rest => if tokenMatch arg p then some p else argMatch arg rest

/-- First match over a process's command-line tokens, left to right. -/
def procMatch (args prefixes : List String) : Option String :=
  match args with
  | [] => none
  | a :: rest =>
    match argMatch a prefixes with
    | some p => some p
    | none => procMatch rest prefixes

/-- First match over a window's foreground processes in listed order; a
process with an empty command line is skipped. -/
def winMatch (procs : List ForegroundProcess) (prefixes : List String) :
    Option String :=
  match procs with
  | [] => none
  | proc :: rest =>
    if proc.cmdline.length = 0 then winMatch rest prefixes
    else
      match procMatch proc.cmdline prefixes with
      | some p => some p
      | none => winMatch rest prefixes

/-- Function `extractAI` from `cmd/lazyccg/main.go` (lines 736–763). -/
def extractAI (win : KittyWindow) (prefixes : List String) : String × Bool :=
  match winMatch win.foregroundProcesses prefixes with
  | some p => (p, true)
  | none => ("", false)

/-- The match condition as worded by the spec (`§4.1`): basename equality, or
`/<prefix>/` as a substring, or the token *ends with* `/<prefix>`.  Kept to
compare the spec's wording against `tokenMatch` from the code. -/
def specTokenMatch (arg p : String) : Bool :=
  strLower (baseName arg) = p ||
    strContains (strLower arg) ("/" ++ p ++ "/") ||
    strEndsWith (strLower arg) ("/" ++ p)

/-! ## Sessions, filtering and status aggregation -/

/-- A detected session (`session` in `main.go`; the wall-clock `Updated`
timestamp is omitted). -/
structure Session where
  tabID : Int
  windowID : Int
  title : String
  ai : String
  status : String
  lines : List String
  cwd : String
  outputHash : String
deriving Repr, DecidableEq

/-- A session value used where the Go code indexes a list it has already
bounds-checked. -/
def dummySession : Session :=
  { tabID := 0, windowID := 0, title := "", ai := "", status := "",
    lines := [], cwd := "", outputHash := "" }

/-- The accumulation loop of `filteredSessions` (`main.go` lines 341–347). -/
def filterGo (statusFilter : String) : List Session → List Session
  | [] => []
  | s :: rest =>
    if s.status = statusFilter then s :: filterGo statusFilter rest
    else filterGo statusFilter rest

/-- Method `filteredSessions` from `cmd/lazyccg/main.go` (lines 337–348), as a
function of the session list and the active status filter. -/
def filterSessions (sessions : List Session) (statusFilter : String) :
    List Session :=
  if statusFilter = "" then sessions else filterGo statusFilter sessions

/-- The fixed status priority order of `availableStatuses`. -/
def statusOrder : List String := ["RUNNING", "IDLE", "WAITING", "DONE"]

/-- Number of sessions with status `st` (the `statusCount` map of
`availableStatuses`). -/
def countStatus (sessions : List Session) (st : String) : Nat :=
  (sessions.filter (fun s => s.status = st)).length

/-- Method `availableStatuses` from `cmd/lazyccg/main.go` (lines 350–363). -/
def availableStatuses (sessions : List Session) : List String :=
  statusOrder.filter (fun st => 0 < countStatus sessions st)

/-! ## Interaction state machine (`model` and `Update`) -/

/-- The key messages the program distinguishes.  In rename mode `Update`
switches on the bubbletea key *type* (`Enter`, `Esc`, `Backspace`, `Space`,
`Runes`); in browsing mode it switches on the key's string form.  Printable
keys such as `q`, `k`, `j`, `r` arrive as `runes`. -/
inductive Key where
  | enter
  | esc
  | backspace
  | space
  | tab
  | up
  | down
  | ctrlC
  | runes (cs : List Char)
deriving Repr, DecidableEq

/-- The value of `msg.String()` for the keys above, as bubbletea renders them. -/
def Key.string : Key → String
  | .enter => "enter"
  | .esc => "esc"
  | .backspace => "backspace"
  | .space => " "
  | .tab => "tab"
  | .up => "up"
  | .down => "down"
  | .ctrlC => "ctrl+c"
  | .runes cs => String.mk cs

/-- The messages handled by `Update` (`tea.KeyMsg`, `tea.WindowSizeMsg`,
`tickMsg`, `sessionsMsg`, `renameResultMsg`, `error`). -/
inductive Msg where
  | key (k : Key)
  | windowSize (w h : Int)
  | tick
  | sessionsMsg (sessions : List Session) (hashes : List (Int × String))
  | renameResult (e : Option String)
  | errMsg (e : String)
deriving Repr, DecidableEq

/-- The commands `Update` can return (`tea.Quit`, `focusCmd`, `renameCmd`,
the refresh/tick batch, or none). -/
inductive Cmd where
  | none
  | quit
  | focus (windowID : Int)
  | rename (windowID : Int) (title : String)
  | refreshTick
deriving Repr, DecidableEq

/-- The `model` struct of `cmd/lazyccg/main.go` (wall-clock fields and the
poll configuration omitted; `prevHashes` kept as an association list). -/
structure Model where
  width : Int
  height : Int
  selected : Int
  sessions : List Session
  err : Option String
  renamingMode : Bool
  renameInput : List Char
  focusedPanel : Int
  statusFilter : String
  statusSelected : Int
  prevHashes : List (Int × String)
deriving Repr, DecidableEq

/-- The model constructed in `main` (Go zero values plus the explicit
initialisation). -/
def initModel : Model :=
  { width := 0, height := 0, selected := 0, sessions := [], err := none,
    renamingMode := false, renameInput := [], focusedPanel := 0,
    statusFilter := "", statusSelected := 0, prevHashes := [] }

/-- The validity check `len(filtered) > 0 && m.selected >= 0 && m.selected <
len(filtered)` guarding every use of the selected session. -/
def validSel (filtered : List Session) (sel : Int) : Prop :=
  0 < filtered.length ∧ 0 ≤ sel ∧ sel < (filtered.length : Int)

instance (filtered : List Session) (sel : Int) : Decidable (validSel filtered sel) :=
  inferInstanceAs (Decidable (_ ∧ _ ∧ _))

/-- Indexing a session list at a non-negative `Int` index the code has
bounds-checked. -/
def getSession (l : List Session) (i : Int) : Session :=
  (l.get? i.toNat).getD dummySession

/-- The rename-mode branch of `Update` (`main.go` lines 218–244): switch on
the key type; `Enter` confirms with the current buffer against the currently
selected filtered session, `Esc` cancels, editing keys mutate the buffer, and
all other keys are ignored. -/
def updateKeyRenaming (m : Model) (k : Key) : Model × Cmd :=
  match k with
  | .enter =>
    let filtered := filterSessions m.sessions m.statusFilter
    if validSel filtered m.selected then
      ({ m with renamingMode := false, renameInput := [] },
        Cmd.rename (getSession filtered m.selected).windowID
          (String.mk m.renameInput))
    else
      ({ m with renamingMode := false, renameInput := [] }, Cmd.none)
  | .esc => ({ m with renamingMode := false, renameInput := [] }, Cmd.none)
  | .backspace =>
    if 0 < m.renameInput.length then
      ({ m with renameInput := m.renameInput.dropLast }, Cmd.none)
    else (m, Cmd.none)
  | .space => ({ m with renameInput := m.renameInput ++ [' '] }, Cmd.none)
  | .runes cs => ({ m with renameInput := m.renameInput ++ cs }, Cmd.none)
  | _ => (m, Cmd.none)

/-- The `"enter"` case of browsing mode (`main.go` lines 254–272): focus the
selected session, or toggle the status filter and reset the selection. -/
def normalEnter (m : Model) : Model × Cmd :=
  if m.focusedPanel = 0 then
    let filtered := filterSessions m.sessions m.statusFilter
    if validSel filtered m.selected then
      (m, Cmd.focus (getSession filtered m.selected).windowID)
    else (m, Cmd.none)
  else
    let statuses := availableStatuses m.sessions
    if 0 ≤ m.statusSelected ∧ m.statusSelected < (statuses.length : Int) then
      let selectedStatus := (statuses.get? m.statusSelected.toNat).getD ""
      let newFilter := if m.statusFilter = selectedStatus then "" else selectedStatus
      ({ m with statusFilter := newFilter, selected := 0, focusedPanel := 0 },
        Cmd.none)
    else (m, Cmd.none)

/-- The `"r"` case of browsing mode (`main.go` lines 273–280): enter rename
mode seeded with the selected session's title. -/
def normalRename (m : Model) : Model × Cmd :=
  if m.focusedPanel = 0 then
    let filtered := filterSessions m.sessions m.statusFilter
    if validSel filtered m.selected then
      ({ m with renamingMode := true, renameInput := (getSession filtered m.selected).title.data }, Cmd.none)
    else (m, Cmd.none)
  else (m, Cmd.none)

/-- The `"up"`/`"k"` case of browsing mode (`main.go` lines 281–293). -/
def normalUp (m : Model) : Model × Cmd :=
  if m.focusedPanel = 0 then
    if 0 < m.selected then ({ m with selected := m.selected - 1 }, Cmd.none)
    else (m, Cmd.none)
  else
    let statuses := availableStatuses m.sessions
    if 0 < m.statusSelected then
      ({ m with statusSelected := m.statusSelected - 1 }, Cmd.none)
    else ({ m with statusSelected := (statuses.length : Int) - 1 }, Cmd.none)

/-- The `"down"`/`"j"` case of browsing mode (`main.go` lines 294–307). -/
def normalDown (m : Model) : Model × Cmd :=
  if m.focusedPanel = 0 then
    let filtered := filterSessions m.sessions m.statusFilter
    if m.selected < (filtered.length : Int) - 1 then
      ({ m with selected := m.selected + 1 }, Cmd.none)
    else (m, Cmd.none)
  else
    let statuses := availableStatuses m.sessions
    if m.statusSelected < (statuses.length : Int) - 1 then
      ({ m with statusSelected := m.statusSelected + 1 }, Cmd.none)
    else ({ m with statusSelected := 0 }, Cmd.none)

/-- The browsing-mode branch of `Update` (`main.go` lines 246–308): switch on
`msg.String()`. -/
def updateKeyNormal (m : Model) (k : Key) : Model × Cmd :=
  let s := Key.string k
  if s = "q" ∨ s = "ctrl+c" then (m, Cmd.quit)
  else if s = "tab" then
    ({ m with focusedPanel := (m.focusedPanel + 1) % 2 }, Cmd.none)
  else if s = "esc" then
    ({ m with statusFilter := "", focusedPanel := 0 }, Cmd.none)
  else if s = "enter" then normalEnter m
  else if s = "r" then normalRename m
  else if s = "up" ∨ s = "k" then normalUp m
  else if s = "down" ∨ s = "j" then normalDown m
  else (m, Cmd.none)

/-- Method `Update` from `cmd/lazyccg/main.go` (lines 215–335). -/
def update (m : Model) : Msg → Model × Cmd
  | .key k => if m.renamingMode then updateKeyRenaming m k else updateKeyNormal m k
  | .windowSize w h => ({ m with width := w, height := h }, Cmd.none)
  | .tick => (m, Cmd.refreshTick)
  | .sessionsMsg ss hashes =>
    let sel :=
      if (ss.length : Int) ≤ m.selected then
        if (ss.length : Int) - 1 < 0 then 0 else (ss.length : Int) - 1
      else m.selected
    ({ m with sessions := ss, prevHashes := hashes, selected := sel }, Cmd.none)
  | .renameResult e =>
    match e with
    | some s => ({ m with err := some s }, Cmd.none)
    | none => (m, Cmd.none)
  | .errMsg e => ({ m with err := some e }, Cmd.none)

/-- The model after one message. -/
def applyMsg (m : Model) (msg : Msg) : Model :=
  (update m msg).1

/-- The model after a sequence of messages. -/
def applyMsgs (m : Model) (msgs : List Msg) : Model :=
  msgs.foldl applyMsg m

/-! ## Concrete data for counterexamples -/

/-- A RUNNING claude session in window 1. -/
def sessA : Session :=
  { tabID := 1, windowID := 1, title := "a", ai := "claude", status := "RUNNING",
    lines := [], cwd := "", outputHash := "" }

/-- A RUNNING claude session in window 2. -/
def sessB : Session :=
  { tabID := 2, windowID := 2, title := "b", ai := "claude", status := "RUNNING",
    lines := [], cwd := "", outputHash := "" }

/-- Session `sessB` reclassified as IDLE by a later poll. -/
def sessBIdle : Session :=
  { sessB with status := "IDLE" }

/-- A RUNNING claude session in window 3 whose title sorts first. -/
def sessZ : Session :=
  { tabID := 3, windowID := 3, title := "Z", ai := "claude", status := "RUNNING",
    lines := [], cwd := "", outputHash := "" }

def wC5 : KittyWindow :=
  { id := 1, title := "", cwd := "",
    foregroundProcesses := [{ pid := 1, cwd := "", cmdline := ["/codex/claude"] }] }


def wC6 : KittyWindow :=
  { id := 1, title := "", cwd := "",
    foregroundProcesses := [{ pid := 1, cwd := "", cmdline := ["/claudette/x"] }] }

/-- A window running `/usr/local/bin/claude` directly. -/
def wC5b : KittyWindow :=
  { id := 2, title := "", cwd := "",
    foregroundProcesses := [{ pid := 7, cwd := "", cmdline := ["/usr/local/bin/claude"] }] }

/-- A browsing-mode model with one session, for the rename witness. -/
def wC7Model : Model :=
  { initModel with sessions := [sessA] }


/-! ## Lemmas about filtering -/

theorem filterGo_eq_filter (f : String) (xs : List Session) :
    filterGo f xs = xs.filter (fun s => s.status = f) := by
  induction xs with
  | nil => rfl
  | cons x rest ih =>
    by_cases h : x.status = f <;> simp [filterGo, List.filter, h, ih]

theorem filterGo_sublist (f : String) (xs : List Session) :
    (filterGo f xs).Sublist xs := by
  rw [filterGo_eq_filter]
  exact List.filter_sublist xs

theorem filterGo_idem (f : String) (xs : List Session) :
    filterGo f (filterGo f xs) = filterGo f xs := by
  induction xs with
  | nil => rfl
  | cons x rest ih =>
    by_cases h : x.status = f <;> simp [filterGo, h, ih]

theorem filterSessions_sublist (xs : List Session) (f : String) :
    (filterSessions xs f).Sublist xs := by
  unfold filterSessions
  split
  · exact List.Sublist.refl xs
  · exact filterGo_sublist f xs

theorem filterSessions_length_le (xs : List Session) (f : String) :
    (filterSessions xs f).length ≤ xs.length :=
  (filterSessions_sublist xs f).length_le

/-! ## Lemmas about the AI identifier -/

theorem argMatch_isSome_iff (arg : String) (ps : List String) :
    (argMatch arg ps).isSome = true ↔ ∃ p ∈ ps, tokenMatch arg p = true := by
  induction ps with
  | nil => simp [argMatch]
  | cons p rest ih =>
    by_cases h : tokenMatch arg p = true
    · simp [argMatch, h]
    · simp only [argMatch, h, if_neg, Bool.false_eq_true, ite_false, ih,
        List.mem_cons]
      constructor
      · rintro ⟨q, hq, hm⟩
        exact ⟨q, Or.inr hq, hm⟩
      · rintro ⟨q, hq | hq, hm⟩
        · exact absurd (hq ▸ hm) h
        · exact ⟨q, hq, hm⟩

theorem procMatch_isSome_iff (args ps : List String) :
    (procMatch args ps).isSome = true ↔
      ∃ a ∈ args, ∃ p ∈ ps, tokenMatch a p = true := by
  induction args with
  | nil => simp [procMatch]
  | cons a rest ih =>
    cases h : argMatch a ps with
    | some p =>
      have := (argMatch_isSome_iff a ps).mp (by simp [h])
      simp only [procMatch, h, Option.isSome_some, true_iff, List.mem_cons]
      obtain ⟨q, hq, hm⟩ := this
      exact ⟨a, Or.inl rfl, q, hq, hm⟩
    | none =>
      have hno : ¬∃ p ∈ ps, tokenMatch a p = true := by
        rw [← argMatch_isSome_iff]
        simp [h]
      simp only [procMatch, h, ih, List.mem_cons]
      constructor
      · rintro ⟨b, hb, hm⟩
        exact ⟨b, Or.inr hb, hm⟩
      · rintro ⟨b, hb | hb, hm⟩
        · exact absurd (hb ▸ hm) hno
        · exact ⟨b, hb, hm⟩

theorem winMatch_isSome_iff (procs : List ForegroundProcess) (ps : List String) :
    (winMatch procs ps).isSome = true ↔
      ∃ proc ∈ procs, ∃ a ∈ proc.cmdline, ∃ p ∈ ps, tokenMatch a p = true := by
  induction procs with
  | nil => simp [winMatch]
  | cons proc rest ih =>
    by_cases hc : proc.cmdline.length = 0
    · have hnil : proc.cmdline = [] := List.length_eq_zero.mp hc
      rw [winMatch.eq_def]
      simp only [if_pos hc, ih, List.mem_cons]
      constructor
      · rintro ⟨q, hq, hm⟩
        exact ⟨q, Or.inr hq, hm⟩
      · rintro ⟨q, hq | hq, a, ha, hm⟩
        · rw [hq, hnil] at ha
          exact absurd ha (List.not_mem_nil a)
        · exact ⟨q, hq, a, ha, hm⟩
    · rw [winMatch.eq_def]
      simp only [if_neg hc]
      cases h : procMatch proc.cmdline ps with
      | some p =>
        have hex := (procMatch_isSome_iff proc.cmdline ps).mp (by simp [h])
        simp only [Option.isSome_some, true_iff, List.mem_cons]
        exact ⟨proc, Or.inl rfl, hex⟩
      | none =>
        have hno : ¬∃ a ∈ proc.cmdline, ∃ p ∈ ps, tokenMatch a p = true := by
          rw [← procMatch_isSome_iff]
          simp [h]
        simp only [ih, List.mem_cons]
        constructor
        · rintro ⟨q, hq, hm⟩
          exact ⟨q, Or.inr hq, hm⟩
        · rintro ⟨q, hq | hq, hm⟩
          · exact absurd (hq ▸ hm) hno
          · exact ⟨q, hq, hm⟩

/-! ## Lemmas about the interaction state machine -/

/-- The selection invariant that the code actually maintains: the selected
index is non-negative and either inside the full (unfiltered) session list or
zero. -/
def selInvFull (m : Model) : Prop :=
  0 ≤ m.selected ∧ (m.selected < (m.sessions.length : Int) ∨ m.selected = 0)

instance (m : Model) : Decidable (selInvFull m) :=
  inferInstanceAs (Decidable (_ ∧ _))

/-- The selection invariant as claimed by the spec, relative to the filtered
session list. -/
def selInvFiltered (m : Model) : Prop :=
  (0 ≤ m.selected ∧
      m.selected < ((filterSessions m.sessions m.statusFilter).length : Int)) ∨
    (filterSessions m.sessions m.statusFilter = [] ∧ m.selected = 0)

instance (m : Model) : Decidable (selInvFiltered m) :=
  inferInstanceAs (Decidable (_ ∨ _))

theorem updateKeyRenaming_selected_sessions (m : Model) (k : Key) :
    (updateKeyRenaming m k).1.selected = m.selected ∧
      (updateKeyRenaming m k).1.sessions = m.sessions := by
  cases k <;> simp only [updateKeyRenaming] <;> (repeat' split) <;> simp

theorem normalEnter_inv (m : Model) (h : selInvFull m) :
    selInvFull (normalEnter m).1 := by
  obtain ⟨h1, h2⟩ := h
  simp only [normalEnter]
  split_ifs <;> simp only [selInvFull] <;> first | omega | exact ⟨le_refl 0, Or.inr trivial⟩

theorem normalRename_inv (m : Model) (h : selInvFull m) :
    selInvFull (normalRename m).1 := by
  obtain ⟨h1, h2⟩ := h
  simp only [normalRename]
  split_ifs <;> simp only [selInvFull] <;> omega

theorem normalUp_inv (m : Model) (h : selInvFull m) :
    selInvFull (normalUp m).1 := by
  obtain ⟨h1, h2⟩ := h
  simp only [normalUp]
  split_ifs <;> simp only [selInvFull] <;> omega

theorem normalDown_inv (m : Model) (h : selInvFull m) :
    selInvFull (normalDown m).1 := by
  have hle := filterSessions_length_le m.sessions m.statusFilter
  obtain ⟨h1, h2⟩ := h
  simp only [normalDown]
  split_ifs <;> simp only [selInvFull] <;> omega

theorem updateKeyNormal_inv (m : Model) (k : Key) (h : selInvFull m) :
    selInvFull (updateKeyNormal m k).1 := by
  simp only [updateKeyNormal]
  split_ifs
  · exact h
  · exact h.imp id id
  · exact h.imp id id
  · exact normalEnter_inv m h
  · exact normalRename_inv m h
  · exact normalUp_inv m h
  · exact normalDown_inv m h
  · exact h

theorem applyMsg_inv (m : Model) (msg : Msg) (h : selInvFull m) :
    selInvFull (applyMsg m msg) := by
  cases msg with
  | key k =>
    simp only [applyMsg, update]
    split
    · obtain ⟨hs, hss⟩ := updateKeyRenaming_selected_sessions m k
      unfold selInvFull at *
      rw [hs, hss]
      exact h
    · exact updateKeyNormal_inv m k h
  | windowSize w h' => exact h
  | tick => exact h
  | sessionsMsg ss hashes =>
    obtain ⟨h1, h2⟩ := h
    simp only [applyMsg, update, selInvFull]
    split_ifs <;> omega
  | renameResult e => cases e <;> exact h
  | errMsg e => exact h

theorem applyMsgs_inv (msgs : List Msg) :
    ∀ m : Model, selInvFull m → selInvFull (applyMsgs m msgs) := by
  induction msgs with
  | nil => intro m h; exact h
  | cons msg rest ih =>
    intro m h
    exact ih (applyMsg m msg) (applyMsg_inv m msg h)

/-! ## Lemmas about rename mode -/

/-- How one key event transforms the rename buffer while in rename mode
(`main.go` lines 234–242). -/
def editStep (buf : List Char) (k : Key) : List Char :=
  match k with
  | .backspace => if 0 < buf.length then buf.dropLast else buf
  | .space => buf ++ [' ']
  | .runes cs => buf ++ cs
  | _ => buf

/-- Keys that stay inside rename mode (everything except confirm and
cancel). -/
def isEditKey (k : Key) : Prop :=
  k ≠ Key.enter ∧ k ≠ Key.esc

instance (k : Key) : Decidable (isEditKey k) :=
  inferInstanceAs (Decidable (_ ∧ _))

theorem updateKeyRenaming_edit (m : Model) (k : Key) (hk : isEditKey k) :
    updateKeyRenaming m k = ({ m with renameInput := editStep m.renameInput k }, Cmd.none) := by
  obtain ⟨h1, h2⟩ := hk
  cases k <;> simp only [updateKeyRenaming, editStep] <;> try rfl
  · exact absurd rfl h1
  · exact absurd rfl h2
  · split <;> rfl

theorem rename_edit_run (edits : List Key) :
    ∀ m : Model, m.renamingMode = true → (∀ k ∈ edits, isEditKey k) →
      applyMsgs m (edits.map Msg.key) =
        { m with renameInput := edits.foldl editStep m.renameInput } := by
  induction edits with
  | nil => intro m _ _; rfl
  | cons k rest ih =>
    intro m hr hks
    have hk : isEditKey k := hks k (List.mem_cons_self k rest)
    have hstep : applyMsg m (Msg.key k) = { m with renameInput := editStep m.renameInput k } := by
      simp only [applyMsg, update, hr, if_pos, updateKeyRenaming_edit m k hk]
    calc applyMsgs m ((k :: rest).map Msg.key)
        = applyMsgs (applyMsg m (Msg.key k)) (rest.map Msg.key) := rfl
      _ = { m with renameInput := (k :: rest).foldl editStep m.renameInput } := by
          rw [hstep]
          exact ih _ hr (fun j hj => hks j (List.mem_cons_of_mem k hj))

theorem updateKeyNormal_runes_r (m : Model) :
    updateKeyNormal m (Key.runes ['r']) = normalRename m := by
  unfold updateKeyNormal
  simp only [Key.string]
  rw [if_neg (by decide), if_neg (by decide), if_neg (by decide),
    if_neg (by decide), if_pos (by decide)]

theorem normalRename_valid (m : Model) (hp : m.focusedPanel = 0)
    (hv : validSel (filterSessions m.sessions m.statusFilter) m.selected) :
    normalRename m =
      ({ m with renamingMode := true, renameInput := (getSession (filterSessions m.sessions m.statusFilter) m.selected).title.data },
        Cmd.none) := by
  unfold normalRename
  rw [if_pos hp]
  simp only
  rw [if_pos hv]

theorem updateKeyRenaming_enter (m : Model)
    (hv : validSel (filterSessions m.sessions m.statusFilter) m.selected) :
    updateKeyRenaming m Key.enter =
      ({ m with renamingMode := false, renameInput := [] },
        Cmd.rename
          (getSession (filterSessions m.sessions m.statusFilter) m.selected).windowID
          (String.mk m.renameInput)) := by
  unfold updateKeyRenaming
  simp only
  rw [if_pos hv]

theorem selInvFull_to_filtered (m : Model) (h : selInvFull m)
    (hf : m.statusFilter = "") : selInvFiltered m := by
  obtain ⟨h1, h2⟩ := h
  unfold selInvFiltered filterSessions
  rw [hf, if_pos rfl]
  rcases h2 with h2 | h2
  · exact Or.inl ⟨h1, h2⟩
  · by_cases hn : m.sessions = []
    · exact Or.inr ⟨hn, h2⟩
    · left
      refine ⟨h1, ?_⟩
      have hlen : m.sessions.length ≠ 0 := fun e => hn (List.length_eq_zero.mp e)
      omega

/-! ## Claims -/

/-- C1 (amended): after any sequence of messages from the initial model, the
selection index satisfies `0 ≤ selected` and `selected < len(sessions)` or
`selected = 0` — the invariant holds against the FULL session list; the
filtered-list form of the invariant additionally holds whenever no status
filter is active.  (The filtered-list form does not hold in general: the
snapshot clamp uses the unfiltered length, see the counterexample.) -/
theorem C1_selection_invariant_amended (msgs : List Msg) :
    selInvFull (applyMsgs initModel msgs) ∧
      ((applyMsgs initModel msgs).statusFilter = "" →
        selInvFiltered (applyMsgs initModel msgs)) := by
  have h : selInvFull (applyMsgs initModel msgs) :=
    applyMsgs_inv msgs initModel (by decide)
  exact ⟨h, fun hf => selInvFull_to_filtered _ h hf⟩

/-- C1 witness: a concrete run evaluating the amended invariant. -/
theorem C1_selection_invariant_witness :
    selInvFull (applyMsgs initModel [Msg.sessionsMsg [sessA, sessB] [], Msg.key Key.down]) ∧
      selInvFiltered (applyMsgs initModel [Msg.sessionsMsg [sessA, sessB] [], Msg.key Key.down]) :=
  ⟨(C1_selection_invariant_amended [Msg.sessionsMsg [sessA, sessB] [], Msg.key Key.down]).1,
    (C1_selection_invariant_amended [Msg.sessionsMsg [sessA, sessB] [], Msg.key Key.down]).2 (by decide)⟩

/-- C1 counterexample: from the initial model, poll in two RUNNING sessions,
toggle the RUNNING filter, move down, and poll in a snapshot where the second
session went IDLE.  The clamp compares against the full list (length 2), so
`selected = 1` survives although the filtered list now has length 1 — the
claimed invariant `0 ≤ selected < len(filteredSessions) ∨ (filtered = [] ∧
selected = 0)` is violated. -/
theorem C1_selection_invariant_counterexample :
    ¬ selInvFiltered (applyMsgs initModel
      [Msg.sessionsMsg [sessA, sessB] [], Msg.key Key.tab, Msg.key Key.enter,
       Msg.key Key.down, Msg.sessionsMsg [sessA, sessBIdle] []]) := by decide

/-- C2 (amended): classifying empty content yields IDLE when no previous
fingerprint exists or the previous fingerprint equals the empty current
fingerprint; with a non-empty previous fingerprint the fingerprint-change
rule precedes the empty-content rule and yields RUNNING. -/
theorem C2_empty_content_amended :
    classifyStatus [] none = "IDLE" ∧ classifyStatus [] (some "") = "IDLE" ∧
      ∀ h : String, h ≠ "" → classifyStatus [] (some h) = "RUNNING" := by
  refine ⟨by decide, by decide, ?_⟩
  intro h hne
  have h2 : ("" : String) ≠ h := fun e => hne e.symm
  have ht : runningTrigger [] (some h) = (!("" = h : Bool) || false) := rfl
  have ht2 : runningTrigger [] (some h) = true := by
    rw [ht, decide_eq_false h2]
    rfl
  unfold classifyStatus
  rw [ht2]
  rfl

/-- C2 witness: the amended RUNNING case at a concrete fingerprint. -/
theorem C2_empty_content_witness :
    ("x" : String) ≠ "" ∧ classifyStatus [] (some "x") = "RUNNING" :=
  ⟨by decide, C2_empty_content_amended.2.2 "x" (by decide)⟩

/-- C2 counterexample: with a non-empty previous fingerprint, empty content
classifies as RUNNING, not IDLE — the empty-content rule does not bypass the
fingerprint-change rule. -/
theorem C2_empty_content_counterexample :
    classifyStatus [] (some "x") = "RUNNING" ∧ ("RUNNING" : String) ≠ "IDLE" := by decide

/-- C3: in the heuristic-only classifier (the no-fingerprint path), whenever
the earlier rules (empty content, prompt/idle markers, WAITING markers) did
not match, the result is DONE exactly when one of "done"/"finished"/
"complete" occurs case-insensitively in the recent text, and RUNNING
otherwise; in particular `["Task completed successfully"]` classifies DONE. -/
theorem C3_heuristic_done_vs_running :
    (∀ lines : List String, lines ≠ [] → promptIdleHeuristic lines = false →
        waitingMarker lines = false →
        inferStatusHeuristic lines = (if doneMarker lines then "DONE" else "RUNNING")) ∧
      inferStatusHeuristic ["Task completed successfully"] = "DONE" := by
  constructor
  · intro lines h1 h2 h3
    unfold inferStatusHeuristic
    rw [if_neg (fun e => h1 (List.length_eq_zero.mp e)), if_neg (by simp [h2]),
      if_neg (by simp [h3])]
  · decide

/-- C3 witness: the quantified part evaluated at concrete lines. -/
theorem C3_heuristic_witness :
    (["xyz"] : List String) ≠ [] ∧ promptIdleHeuristic ["xyz"] = false ∧
      waitingMarker ["xyz"] = false ∧
      inferStatusHeuristic ["xyz"] = (if doneMarker ["xyz"] then "DONE" else "RUNNING") :=
  ⟨by decide, by decide, by decide,
    C3_heuristic_done_vs_running.1 ["xyz"] (by decide) (by decide) (by decide)⟩

/-- C5 (amended): a token whose lower-cased basename equals a configured
prefix makes `extractAI` report found — but the reported name is the first
match in scan order, not necessarily that prefix (see the counterexample). -/
theorem C5_basename_found_amended (win : KittyWindow) (ps : List String)
    (p : String) (proc : ForegroundProcess) (arg : String)
    (hproc : proc ∈ win.foregroundProcesses) (harg : arg ∈ proc.cmdline)
    (hp : p ∈ ps) (hbase : strLower (baseName arg) = p) :
    (extractAI win ps).2 = true := by
  have hm : tokenMatch arg p = true := by
    unfold tokenMatch
    rw [hbase]
    simp
  have hsome := (winMatch_isSome_iff win.foregroundProcesses ps).mpr
    ⟨proc, hproc, arg, harg, p, hp, hm⟩
  unfold extractAI
  cases hq : winMatch win.foregroundProcesses ps with
  | none => rw [hq] at hsome; simp at hsome
  | some q => rfl

/-- C5 witness: the spec's own scenario, `/usr/local/bin/claude` with the
default prefixes. -/
theorem C5_basename_found_witness :
    (extractAI wC5b ["codex", "claude", "gemini"]).2 = true :=
  C5_basename_found_amended wC5b ["codex", "claude", "gemini"] "claude"
    ⟨7, "", ["/usr/local/bin/claude"]⟩ "/usr/local/bin/claude"
    (by decide) (by decide) (by decide) (by decide)

/-- C5 counterexample: token `/codex/claude` has lower-cased basename
`claude`, yet with the default prefix order `extractAI` returns
`("codex", true)` — the `/codex/` path-component rule for the earlier-listed
prefix wins, so the result is not `(p, true)` for `p = "claude"`. -/
theorem C5_basename_found_counterexample :
    strLower (baseName "/codex/claude") = "claude" ∧
      ("claude" : String) ∈ ["codex", "claude", "gemini"] ∧
      extractAI wC5 ["codex", "claude", "gemini"] = ("codex", true) ∧
      extractAI wC5 ["codex", "claude", "gemini"] ≠ ("claude", true) := by decide

/-- C6 (amended): `extractAI` reports found exactly when some process has a
token matching some configured prefix under the CODE's condition — basename
equality, or the lower-cased token containing `/<prefix>/`, or containing
`/<prefix>` anywhere (not only as a suffix); and it returns `("", false)`
exactly otherwise, empty command lines being skipped. -/
theorem C6_found_iff_amended (win : KittyWindow) (ps : List String) :
    ((extractAI win ps).2 = true ↔
        ∃ proc ∈ win.foregroundProcesses, ∃ arg ∈ proc.cmdline, ∃ p ∈ ps,
          tokenMatch arg p = true) ∧
      (extractAI win ps = ("", false) ↔
        ¬∃ proc ∈ win.foregroundProcesses, ∃ arg ∈ proc.cmdline, ∃ p ∈ ps,
          tokenMatch arg p = true) := by
  have hiff := winMatch_isSome_iff win.foregroundProcesses ps
  unfold extractAI
  cases hw : winMatch win.foregroundProcesses ps with
  | none =>
    rw [hw] at hiff
    simp only [Option.isSome_none, Bool.false_eq_true, false_iff] at hiff
    constructor
    · simp [hiff]
    · simp [hiff]
  | some q =>
    rw [hw] at hiff
    simp only [Option.isSome_some] at hiff
    have he := hiff.mp trivial
    constructor
    · simp [he]
    · simp [he]

/-- C6 counterexample: the window's only token is `/claudette/x`; the code
reports `("claude", true)` (because the token contains `/claude`), yet the
SPEC's condition — basename equality, `/claude/` component, or ends-with
`/claude` — is false for that token, refuting the claimed iff. -/
theorem C6_found_iff_counterexample :
    (extractAI wC6 ["claude"]).2 = true ∧
      wC6.foregroundProcesses.map ForegroundProcess.cmdline = [["/claudette/x"]] ∧
      specTokenMatch "/claudette/x" "claude" = false := by decide

/-- C7 (amended): when NO poll-snapshot replacement happens between
rename-start and rename-confirm — only rename-editing key events — the rename
command emitted on confirm targets the session that was selected when rename
started, with the edited buffer (seeded from that session's title) as the new
title.  (With an interleaved snapshot replacement the target can shift, see
the counterexample.) -/
theorem C7_rename_target_amended (m : Model) (edits : List Key) (sess : Session)
    (hr : m.renamingMode = false) (hp : m.focusedPanel = 0) (h0 : 0 ≤ m.selected)
    (hget : (filterSessions m.sessions m.statusFilter).get? m.selected.toNat = some sess)
    (hed : ∀ k ∈ edits, isEditKey k) :
    (update (applyMsgs (applyMsg m (Msg.key (Key.runes ['r']))) (edits.map Msg.key))
        (Msg.key Key.enter)).2
      = Cmd.rename sess.windowID (String.mk (edits.foldl editStep sess.title.data)) := by
  obtain ⟨hlt, hgeteq⟩ := List.get?_eq_some.mp hget
  have hv : validSel (filterSessions m.sessions m.statusFilter) m.selected :=
    ⟨by omega, h0, by omega⟩
  have hgs : getSession (filterSessions m.sessions m.statusFilter) m.selected = sess := by
    unfold getSession
    rw [hget]
    rfl
  have hstep1 : applyMsg m (Msg.key (Key.runes ['r']))
      = { m with renamingMode := true, renameInput := sess.title.data } := by
    simp only [applyMsg, update]
    rw [if_neg (by simp [hr])]
    rw [updateKeyNormal_runes_r, normalRename_valid m hp hv, hgs]
  have hstep2 : applyMsgs { m with renamingMode := true, renameInput := sess.title.data }
      (edits.map Msg.key)
      = { m with renamingMode := true, renameInput := edits.foldl editStep sess.title.data } :=
    rename_edit_run edits _ rfl hed
  rw [hstep1, hstep2]
  set m2 : Model := { m with renamingMode := true, renameInput := edits.foldl editStep sess.title.data } with hm2
  have hv2 : validSel (filterSessions m2.sessions m2.statusFilter) m2.selected := hv
  have hmode : update m2 (Msg.key Key.enter) = updateKeyRenaming m2 Key.enter := rfl
  rw [hmode, updateKeyRenaming_enter m2 hv2]
  show Cmd.rename (getSession (filterSessions m.sessions m.statusFilter) m.selected).windowID
      (String.mk (edits.foldl editStep sess.title.data)) = _
  rw [hgs]

/-- C7 witness: a concrete rename run with one edit key and no interleaved
snapshot. -/
theorem C7_rename_target_witness :
    (update (applyMsgs (applyMsg wC7Model (Msg.key (Key.runes ['r'])))
        ([Key.runes ['!']].map Msg.key)) (Msg.key Key.enter)).2
      = Cmd.rename sessA.windowID
          (String.mk ([Key.runes ['!']].foldl editStep sessA.title.data)) :=
  C7_rename_target_amended wC7Model [Key.runes ['!']] sessA rfl rfl (by decide)
    (by decide) (by decide)

/-- C7 counterexample: rename starts while session `sessA` (window 1) is
selected; a poll snapshot then prepends `sessZ` (window 3); confirm emits a
rename for window 3, not for the session selected when rename started. -/
theorem C7_rename_target_counterexample :
    (update (applyMsgs initModel
        [Msg.sessionsMsg [sessA, sessB] [], Msg.key (Key.runes ['r']),
         Msg.sessionsMsg [sessZ, sessA, sessB] []]) (Msg.key Key.enter)).2
      = Cmd.rename 3 "a" ∧
      (filterSessions (applyMsgs initModel [Msg.sessionsMsg [sessA, sessB] []]).sessions
          (applyMsgs initModel [Msg.sessionsMsg [sessA, sessB] []]).statusFilter).get? 0
        = some sessA ∧
      sessA.windowID = 1 ∧ ((3 : Int)) ≠ 1 := by decide

/-- C8 (amended): a poll failure changes only the recorded error (and the
wall-clock timestamp, not modelled): session snapshot, fingerprint table and
all interaction state are untouched, and the error is overwritten by a later
error — but a subsequent successful poll leaves the recorded error in place
rather than overwriting it. -/
theorem C8_error_isolation_amended (m : Model) (e : String) :
    (applyMsg m (Msg.errMsg e)).err = some e ∧
      (applyMsg m (Msg.errMsg e)).sessions = m.sessions ∧
      (applyMsg m (Msg.errMsg e)).prevHashes = m.prevHashes ∧
      (applyMsg m (Msg.errMsg e)).selected = m.selected ∧
      (applyMsg m (Msg.errMsg e)).statusFilter = m.statusFilter ∧
      (applyMsg m (Msg.errMsg e)).focusedPanel = m.focusedPanel ∧
      (applyMsg m (Msg.errMsg e)).statusSelected = m.statusSelected ∧
      (applyMsg m (Msg.errMsg e)).renamingMode = m.renamingMode ∧
      (applyMsg m (Msg.errMsg e)).renameInput = m.renameInput ∧
      (applyMsg m (Msg.errMsg e)).width = m.width ∧
      (applyMsg m (Msg.errMsg e)).height = m.height ∧
      (∀ e2 : String, (applyMsg (applyMsg m (Msg.errMsg e)) (Msg.errMsg e2)).err = some e2) ∧
      (∀ (ss : List Session) (hs : List (Int × String)),
        (applyMsg (applyMsg m (Msg.errMsg e)) (Msg.sessionsMsg ss hs)).err = some e) :=
  ⟨rfl, rfl, rfl, rfl, rfl, rfl, rfl, rfl, rfl, rfl, rfl,
    fun _ => rfl, fun _ _ => rfl⟩

/-- C8 counterexample: after a poll failure, a successful poll does NOT
overwrite the recorded error — it is still `some "boom"`. -/
theorem C8_error_overwrite_counterexample :
    (applyMsgs initModel [Msg.errMsg "boom", Msg.sessionsMsg [sessA] [(1, "h")]]).err
        = some "boom" ∧
      some "boom" ≠ (none : Option String) := by decide

/-- C9: status filtering is a pure order-preserving projection — the empty
filter returns the list unchanged, a non-empty filter returns exactly the
sublist of sessions with that status (`List.filter`), and filtering twice by
the same status is idempotent. -/
theorem C9_filter_projection (xs : List Session) (s : String) :
    filterSessions xs "" = xs ∧
      (filterSessions xs s).Sublist xs ∧
      (s ≠ "" → filterSessions xs s = xs.filter (fun x => x.status = s)) ∧
      filterSessions (filterSessions xs s) s = filterSessions xs s := by
  refine ⟨by simp [filterSessions], filterSessions_sublist xs s, ?_, ?_⟩
  · intro hs
    unfold filterSessions
    rw [if_neg hs]
    exact filterGo_eq_filter s xs
  · by_cases hs : s = ""
    · simp [filterSessions, hs]
    · simp only [filterSessions, if_neg hs]
      exact filterGo_idem s xs

/-- C9 witness: the projection clause evaluated at a concrete list and
filter. -/
theorem C9_filter_projection_witness :
    filterSessions [sessA, sessBIdle] "RUNNING"
      = List.filter (fun x => x.status = "RUNNING") [sessA, sessBIdle] :=
  (C9_filter_projection [sessA, sessBIdle] "RUNNING").2.2.1 (by decide)

/-- C10: the fingerprint-aware pipeline never produces DONE — the session
status computed by `loadSessions` is RUNNING, WAITING or IDLE, and its
`inferStatus` fallback only ever returns WAITING or IDLE. -/
theorem C10_no_done_status (lines : List String) (prev : Option String) :
    (inferStatus lines = "WAITING" ∨ inferStatus lines = "IDLE") ∧
      (classifyStatus lines prev = "RUNNING" ∨ classifyStatus lines prev = "WAITING" ∨
        classifyStatus lines prev = "IDLE") := by
  have h1 : inferStatus lines = "WAITING" ∨ inferStatus lines = "IDLE" := by
    simp only [inferStatus]
    split
    · exact Or.inr rfl
    · split
      · exact Or.inl rfl
      · split
        · exact Or.inr rfl
        · exact Or.inr rfl
  refine ⟨h1, ?_⟩
  unfold classifyStatus
  split
  · exact Or.inl rfl
  · rcases h1 with h | h
    · exact Or.inr (Or.inl h)
    · exact Or.inr (Or.inr h)

end Lazyccg
